import Mathlib

/-!
Verification development for the truyenfull crawl orchestration and
progress-tracking subsystem.  The Python sources are shallowly embedded:
pure extraction helpers become Lean functions on `List Char` / `String`,
the JSON progress document becomes an explicit `ProgressState` record,
and the mutable accumulation loops become folds / structural recursions.
Python's `sorted` / `list.sort` are stable sorts; they are embedded as
`List.insertionSort`, which is likewise stable for the same key order.
-/

/-- Boolean list-prefix test (embeds a regex literal-word match step). -/
def isPrefixList : List Char → List Char → Bool
  | [], _ => true
  | _ :: _, [] => false
  | a :: as, b :: bs => a == b && isPrefixList as bs

/-- Maximal leading run of ASCII digits, as matched greedily by a regex
digit group. -/
def digitRun : List Char → List Char
  | [] => []
  | c :: rest => if c.isDigit then c :: digitRun rest else []

/-- Numeric value of a digit string, as Python int() of a digit group. -/
def digitsVal (ds : List Char) : Nat :=
  ds.foldl (fun acc c => acc * 10 + (c.toNat - 48)) 0

/-- Substring test: Python `pat in s`. -/
def containsSub (pat : List Char) : List Char → Bool
  | [] => isPrefixList pat []
  | c :: rest => isPrefixList pat (c :: rest) || containsSub pat rest

/-- One attempted match of the regex `word-?(\d+)` at the head of `s`:
the literal word, an optional hyphen, then at least one digit; the value
is the maximal digit run (the regex group is greedy).  Mirrors
`re.search(r"chuong-?(\d+)", url)` and `re.search(r"trang-?(\d+)", url)`
tested at a single start position. -/
def matchWordNumHere (word s : List Char) : Option Nat :=
  if isPrefixList word s then
    match s.drop word.length with
    | '-' :: r =>
      match r with
      | c :: _ => if c.isDigit then some (digitsVal (digitRun r)) else none
      | [] => none
    | c :: rest => if c.isDigit then some (digitsVal (digitRun (c :: rest))) else none
    | [] => none
  else none

/-- Left-to-right scan for the first position where `word-?(\d+)` matches,
as `re.search` does. -/
def searchWordNum (word : List Char) : List Char → Option Nat
  | [] => none
  | c :: rest =>
    match matchWordNumHere word (c :: rest) with
    | some n => some n
    | none => searchWordNum word rest

/-- The literal word of the chapter-number regex `chuong-?(\d+)`. -/
def chuongWord : List Char := "chuong".toList

/-- The literal word of the listing-page regex `trang-?(\d+)`. -/
def trangWord : List Char := "trang".toList

/-- Embeds `TruyenfullSpider._extract_num`:
`m = re.search(r"chuong-?(\d+)", url); return int(m.group(1)) if m else 0`. -/
def extract_num (url : String) : Nat :=
  (searchWordNum chuongWord url.toList).getD 0

theorem matchWordNumHere_nil (word : List Char) :
    matchWordNumHere word [] = none := by
  cases word <;> rfl

theorem searchWordNum_eq_none (word : List Char) (s : List Char)
    (h : ∀ i, matchWordNumHere word (s.drop i) = none) :
    searchWordNum word s = none := by
  induction s with
  | nil => rfl
  | cons c rest ih =>
    have h0 : matchWordNumHere word (c :: rest) = none := by
      have := h 0
      simpa using this
    have hrec : searchWordNum word rest = none := by
      refine ih (fun i => ?_)
      have := h (i + 1)
      simpa using this
    simp [searchWordNum, h0, hrec]

theorem searchWordNum_first (word : List Char) (s : List Char) (i : Nat) (v : Nat)
    (hm : matchWordNumHere word (s.drop i) = some v)
    (hb : ∀ j, j < i → matchWordNumHere word (s.drop j) = none) :
    searchWordNum word s = some v := by
  induction s generalizing i with
  | nil =>
    rw [List.drop_nil] at hm
    rw [matchWordNumHere_nil] at hm
    exact absurd hm (by simp)
  | cons c rest ih =>
    cases i with
    | zero =>
      rw [List.drop_zero] at hm
      simp [searchWordNum, hm]
    | succ j =>
      have h0 : matchWordNumHere word (c :: rest) = none := by
        have := hb 0 (Nat.succ_pos j)
        simpa using this
      have hm2 : matchWordNumHere word (rest.drop j) = some v := by
        simpa using hm
      have hb2 : ∀ k, k < j → matchWordNumHere word (rest.drop k) = none := by
        intro k hk
        have := hb (k + 1) (Nat.succ_lt_succ hk)
        simpa using this
      simp [searchWordNum, h0, ih j hm2 hb2]

/-- A chapter-link record `{"url": ..., "title": ...}` built by
`_extract_chapter_links`. -/
structure ChapterLink where
  url : String
  title : String
deriving DecidableEq, Repr

/-- A raw anchor element as read by `_extract_chapter_links`: its href
(already url-joined, absent when the anchor has no usable href attribute)
and its display title. -/
structure Anchor where
  href : Option String
  title : String
deriving DecidableEq, Repr

/-- The sort order of `_extract_chapter_links` and
`parse_chapter_list_page`: key `self._extract_num(x["url"])`. -/
def chLe (a b : ChapterLink) : Prop :=
  extract_num a.url ≤ extract_num b.url

instance : DecidableRel chLe :=
  fun a b => inferInstanceAs (Decidable (extract_num a.url ≤ extract_num b.url))

instance : IsTotal ChapterLink chLe :=
  ⟨fun a b => Nat.le_total (extract_num a.url) (extract_num b.url)⟩

instance : IsTrans ChapterLink chLe :=
  ⟨fun _ _ _ hab hbc => Nat.le_trans hab hbc⟩

/-- The anchor loop of `_extract_chapter_links`: skip anchors without an
href, skip urls already seen, otherwise record `{url, title}` and add the
url to the seen set (the seen set is embedded as a list). -/
def collectAnchors (seen : List String) : List Anchor → List ChapterLink
  | [] => []
  | a :: rest =>
    match a.href with
    | none => collectAnchors seen rest
    | some url =>
      if url ∈ seen then collectAnchors seen rest
      else { url := url, title := a.title } :: collectAnchors (url :: seen) rest

/-- Embeds `TruyenfullSpider._extract_chapter_links`: dedupe anchors by
url keeping the first occurrence, then stable-sort by the chapter number
parsed from the url. -/
def extract_chapter_links (anchors : List Anchor) : List ChapterLink :=
  List.insertionSort chLe (collectAnchors [] anchors)

/-- The merge step of `parse_chapter_list_page`: with the current
accumulated anchors, append those new links whose url is not already
present (the `existing` set is computed once per page, as in the source). -/
def appendNewLinks (anchors newLinks : List ChapterLink) : List ChapterLink :=
  anchors ++ newLinks.filter (fun l => !(decide (l.url ∈ anchors.map ChapterLink.url)))

/-- Embeds the paginated chapter collector
(`_handle_paginated_chapters` + `parse_chapter_list_page`): start from the
first page's extracted links, merge each sub-page's extracted links in
arrival order, and when the last expected sub-page has arrived keep only
links whose url contains "/chuong-" and stable-sort them by parsed
chapter number. -/
def collectPaginated (firstPage : List Anchor) (subPages : List (List Anchor)) :
    List ChapterLink :=
  let initial := extract_chapter_links firstPage
  let merged := subPages.foldl (fun acc page => appendNewLinks acc (extract_chapter_links page)) initial
  let allLinks := merged.filter (fun l => containsSub "/chuong-".toList l.url.toList)
  List.insertionSort chLe allLinks

theorem collectAnchors_nodup (as : List Anchor) : ∀ seen : List String,
    ((collectAnchors seen as).map ChapterLink.url).Nodup ∧
    (∀ u ∈ (collectAnchors seen as).map ChapterLink.url, u ∉ seen) := by
  induction as with
  | nil => intro seen; simp [collectAnchors]
  | cons a rest ih =>
    intro seen
    match ha : a.href with
    | none => simpa [collectAnchors, ha] using ih seen
    | some url =>
      by_cases hs : url ∈ seen
      · simpa [collectAnchors, ha, hs] using ih seen
      · have ihrec := ih (url :: seen)
        have hunfold : collectAnchors seen (a :: rest)
            = { url := url, title := a.title } :: collectAnchors (url :: seen) rest := by
          simp [collectAnchors, ha, hs]
        rw [hunfold, List.map_cons]
        constructor
        · rw [List.nodup_cons]
          exact ⟨fun hmem => (ihrec.2 url hmem) (List.mem_cons_self url seen), ihrec.1⟩
        · intro u hu
          rcases List.mem_cons.mp hu with rfl | hu2
          · exact hs
          · exact fun hcon => (ihrec.2 u hu2) (List.mem_cons_of_mem url hcon)

theorem extract_chapter_links_nodup (anchors : List Anchor) :
    ((extract_chapter_links anchors).map ChapterLink.url).Nodup := by
  have hperm :
      ((extract_chapter_links anchors).map ChapterLink.url).Perm
        ((collectAnchors [] anchors).map ChapterLink.url) :=
    (List.perm_insertionSort chLe (collectAnchors [] anchors)).map ChapterLink.url
  exact hperm.nodup_iff.mpr (collectAnchors_nodup anchors []).1

theorem appendNewLinks_nodup (acc new : List ChapterLink)
    (h1 : (acc.map ChapterLink.url).Nodup) (h2 : (new.map ChapterLink.url).Nodup) :
    ((appendNewLinks acc new).map ChapterLink.url).Nodup := by
  rw [appendNewLinks, List.map_append, List.nodup_append]
  refine ⟨h1, ?_, ?_⟩
  · exact (List.Sublist.map ChapterLink.url (List.filter_sublist new)).nodup h2
  · intro u hu hv
    rcases List.mem_map.mp hv with ⟨l, hl, rfl⟩
    rcases List.mem_filter.mp hl with ⟨hlmem, hlp⟩
    have hnot : ¬ (l.url ∈ acc.map ChapterLink.url) := by
      intro hcon
      simp [hcon] at hlp
    exact hnot hu

theorem mergedAnchors_nodup (pages : List (List Anchor)) :
    ∀ acc : List ChapterLink, (acc.map ChapterLink.url).Nodup →
    (((pages.foldl (fun acc page => appendNewLinks acc (extract_chapter_links page)) acc)).map ChapterLink.url).Nodup := by
  induction pages with
  | nil => intro acc h; simpa using h
  | cons p rest ih =>
    intro acc h
    rw [List.foldl_cons]
    exact ih _ (appendNewLinks_nodup acc (extract_chapter_links p) h (extract_chapter_links_nodup p))

/-- C1 (amended). For every story first page and every list of merged
chapter-list sub-pages (hence for every arrival order), the collector's
final chapter-link list is sorted by non-decreasing parsed chapter number
and contains no duplicate urls. -/
theorem collector_sorted_nodup (firstPage : List Anchor) (subPages : List (List Anchor)) :
    List.Pairwise (fun a b : ChapterLink => extract_num a.url ≤ extract_num b.url)
      (collectPaginated firstPage subPages) ∧
    ((collectPaginated firstPage subPages).map ChapterLink.url).Nodup := by
  constructor
  · exact List.sorted_insertionSort chLe _
  · have hmerged := mergedAnchors_nodup subPages (extract_chapter_links firstPage)
      (extract_chapter_links_nodup firstPage)
    have hfiltered :
        (((subPages.foldl (fun acc page => appendNewLinks acc (extract_chapter_links page))
            (extract_chapter_links firstPage)).filter
              (fun l => containsSub "/chuong-".toList l.url.toList)).map ChapterLink.url).Nodup :=
      (List.Sublist.map ChapterLink.url (List.filter_sublist _)).nodup hmerged
    have hperm :
        ((collectPaginated firstPage subPages).map ChapterLink.url).Perm
          (((subPages.foldl (fun acc page => appendNewLinks acc (extract_chapter_links page))
            (extract_chapter_links firstPage)).filter
              (fun l => containsSub "/chuong-".toList l.url.toList)).map ChapterLink.url) :=
      (List.perm_insertionSort chLe _).map ChapterLink.url
    exact hperm.nodup_iff.mpr hfiltered

/-- C1 counterexample. Two distinct chapter urls can parse to the same
chapter number; the collector keeps both (dedup is by url), so the final
list is not sorted by STRICTLY ascending parsed chapter number. -/
theorem collector_not_strictly_sorted :
    ¬ List.Pairwise (fun a b : ChapterLink => extract_num a.url < extract_num b.url)
      (collectPaginated [{ href := some "https://x/s/chuong-1", title := "a" }]
        [[{ href := some "https://x/t/chuong-1", title := "b" }]]) := by
  decide

/-- A chapter record as built by `parse_chapter`
(`{"chapter_number", "chapter_title", "content", "source_url"}`). -/
structure ChapterRec where
  chapter_number : Nat
  chapter_title : String
  content : String
  source_url : String
deriving DecidableEq, Repr

/-- A story record as built by `parse_story` and completed by
`_finalize_story` (the chapters list and the last-updated stamp are
filled in at finalization). -/
structure StoryRec where
  source_url : String
  title : String
  author : String
  image_url : String
  description : String
  category : String
  genres : List String
  chapters : List ChapterRec
  last_updated : String
deriving DecidableEq, Repr

/-- The chapter dict built inside `parse_chapter`: its chapter number is
`self._extract_num(response.url)` and its source url is the response url. -/
def parse_chapter_record (url ch_title content : String) : ChapterRec :=
  { chapter_number := extract_num url
    chapter_title := ch_title
    content := content
    source_url := url }

/-- C10. Chapter-number parsing is total and defaults to zero: when no
position of the url matches `chuong-?(\d+)`, `extract_num` returns 0 (and
the chapter record built by `parse_chapter` carries chapter number 0);
when position `i` is the first matching position, `extract_num` returns
the integer parsed there. -/
theorem extract_num_first_match (url : String) :
    ((∀ i, matchWordNumHere chuongWord (url.toList.drop i) = none) →
      extract_num url = 0 ∧
      (∀ t c, (parse_chapter_record url t c).chapter_number = 0)) ∧
    (∀ i v, matchWordNumHere chuongWord (url.toList.drop i) = some v →
      (∀ j, j < i → matchWordNumHere chuongWord (url.toList.drop j) = none) →
      extract_num url = v) := by
  constructor
  · intro h
    have hnone := searchWordNum_eq_none chuongWord url.toList h
    constructor
    · show (searchWordNum chuongWord url.toList).getD 0 = 0
      rw [hnone]; rfl
    · intro t c
      show (searchWordNum chuongWord url.toList).getD 0 = 0
      rw [hnone]; rfl
  · intro i v hm hb
    have hv := searchWordNum_first chuongWord url.toList i v hm hb
    show (searchWordNum chuongWord url.toList).getD 0 = v
    rw [hv]; rfl

/-- Witness for C10 at concrete urls: "https://x/story-mot/" has no
match anywhere, so the parse defaults to 0; "x/chuong-27-tap-2" matches
first at position 2 with value 27. -/
theorem extract_num_first_match_wit :
    extract_num "https://x/story-mot/" = 0 ∧ extract_num "x/chuong-27-tap-2" = 27 := by
  constructor
  · refine ((extract_num_first_match "https://x/story-mot/").1 ?_).1
    intro i
    match i, Nat.lt_or_ge i 20 with
    | i, Or.inl hlt =>
      interval_cases i <;> decide
    | i, Or.inr hge =>
      have hdrop : ("https://x/story-mot/".toList.drop i) = [] := by
        apply List.drop_eq_nil_of_le
        simpa using hge
      rw [hdrop, matchWordNumHere_nil]
  · refine (extract_num_first_match "x/chuong-27-tap-2").2 2 27 (by decide) ?_
    intro j hj
    interval_cases j <;> decide

/-- Python `str.isdigit()` on ASCII text: nonempty and all digits. -/
def isdigitStr (s : String) : Bool :=
  !s.toList.isEmpty && s.toList.all Char.isDigit

/-- Python `str.lower()` on ASCII text. -/
def lowerStr (s : String) : List Char :=
  s.toList.map Char.toLower

/-- The filter predicate of `_finalize_story`: keep a chapter unless its
source url (lowercased) contains "/trang-", or its title is all digits
while its parsed chapter number is 0. -/
def keepChapter (c : ChapterRec) : Bool :=
  !(containsSub "/trang-".toList (lowerStr c.source_url)) &&
  !(isdigitStr c.chapter_title && c.chapter_number == 0)

/-- The sort order of `_finalize_story`: key `c.get("chapter_number", 0)`. -/
def chNumLe (a b : ChapterRec) : Prop :=
  a.chapter_number ≤ b.chapter_number

instance : DecidableRel chNumLe :=
  fun a b => inferInstanceAs (Decidable (a.chapter_number ≤ b.chapter_number))

instance : IsTotal ChapterRec chNumLe :=
  ⟨fun a b => Nat.le_total a.chapter_number b.chapter_number⟩

instance : IsTrans ChapterRec chNumLe :=
  ⟨fun _ _ _ hab hbc => Nat.le_trans hab hbc⟩

/-- Embeds `TruyenfullSpider._finalize_story`: filter the accumulated
chapters with `keepChapter`, stable-sort the survivors by chapter number,
store them on the story and stamp the current time (passed in as `now`,
standing for `datetime.utcnow().isoformat()`). -/
def finalize_story (story : StoryRec) (chapters : List ChapterRec) (now : String) : StoryRec :=
  { story with
      chapters := List.insertionSort chNumLe (chapters.filter keepChapter)
      last_updated := now }

/-- C7 (amended). Finalization keeps exactly the accumulated chapters
whose lowercased source url does not contain "/trang-" and which do not
have an all-digits title together with parsed chapter number 0; the kept
chapters are sorted by non-decreasing chapter number, and the
last-updated stamp is set. -/
theorem finalize_story_spec (story : StoryRec) (chapters : List ChapterRec) (now : String) :
    (finalize_story story chapters now).last_updated = now ∧
    List.Pairwise (fun a b : ChapterRec => a.chapter_number ≤ b.chapter_number)
      (finalize_story story chapters now).chapters ∧
    ((finalize_story story chapters now).chapters).Perm
      (chapters.filter (fun c =>
        !(containsSub "/trang-".toList (lowerStr c.source_url)) &&
        !(isdigitStr c.chapter_title && c.chapter_number == 0))) := by
  refine ⟨rfl, ?_, ?_⟩
  · exact List.sorted_insertionSort chNumLe _
  · exact List.perm_insertionSort chNumLe _

/-- C7 counterexample. A chapter whose parsed chapter number is 0 with a
NON-numeric title ("Prologue") is NOT removed by `_finalize_story` (the
code removes number-0 chapters with an all-digits title instead). -/
theorem finalize_story_keeps_nonnumeric_zero :
    (({ chapter_number := 0, chapter_title := "Prologue", content := "",
        source_url := "https://x/s/mo-dau" } : ChapterRec).chapter_number = 0) ∧
    isdigitStr "Prologue" = false ∧
    ({ chapter_number := 0, chapter_title := "Prologue", content := "",
       source_url := "https://x/s/mo-dau" } : ChapterRec) ∈
      (finalize_story
        { source_url := "https://x/s", title := "S", author := "", image_url := "",
          description := "", category := "", genres := [], chapters := [],
          last_updated := "" }
        [{ chapter_number := 0, chapter_title := "Prologue", content := "",
           source_url := "https://x/s/mo-dau" }] "t").chapters := by
  refine ⟨rfl, rfl, ?_⟩
  decide

/-- The chapter loop of `sync_story` (scraper.py): iterate chapter
numbers from `start` for `fuel` steps (fuel is the size of
`range(start_chapter, end_chapter + 1)`); `fetch n = none` models
`crawl_chapter` returning None (HTTP non-200, e.g. 404, or missing
body), which breaks the loop; a fetched chapter is stored with its
number. -/
def syncChapters {α : Type} (fetch : Nat → Option α) : Nat → Nat → List (Nat × α)
  | _, 0 => []
  | start, fuel + 1 =>
    match fetch start with
    | none => []
    | some c => (start, c) :: syncChapters fetch (start + 1) fuel

/-- The stored chapters of one `sync_story` run over
`range(start_chapter, end_chapter + 1)`. -/
def sync_story_chapters {α : Type} (fetch : Nat → Option α) (start endC : Nat) :
    List (Nat × α) :=
  syncChapters fetch start (endC + 1 - start)

/-- `chapters_added` as reported by `sync_story`. -/
def sync_chapters_added {α : Type} (fetch : Nat → Option α) (start endC : Nat) : Nat :=
  (sync_story_chapters fetch start endC).length

theorem syncChapters_map_fst {α : Type} (fetch : Nat → Option α) (m : Nat) :
    ∀ fuel start, start ≤ m → m < start + fuel →
    (∀ k, start ≤ k → k < m → (fetch k).isSome) → fetch m = none →
    (syncChapters fetch start fuel).map Prod.fst = List.range' start (m - start) := by
  intro fuel
  induction fuel with
  | zero => intro start h1 h2 _ _; omega
  | succ n ih =>
    intro start h1 h2 hs hm
    by_cases hsm : start = m
    · subst hsm
      simp [syncChapters, hm]
    · have hlt : start < m := Nat.lt_of_le_of_ne h1 hsm
      have hsome : (fetch start).isSome := hs start (Nat.le_refl start) hlt
      match hf : fetch start with
      | none => rw [hf] at hsome; exact absurd hsome (by simp)
      | some c =>
        have hrec := ih (start + 1) hlt (by omega)
          (fun k hk1 hk2 => hs k (Nat.le_of_succ_le hk1) hk2) hm
        have hms : m - start = (m - (start + 1)) + 1 := by omega
        rw [syncChapters, hf, List.map_cons, hrec, hms, List.range'_succ]

/-- C2. During an initial (non-resume) `sync_story` run, if chapters
`start ≤ k < m` fetch successfully and chapter `m` (with `m ≤ end`)
returns no content (HTTP 404), the loop stops at `m`: the stored chapter
numbers are exactly `start, start+1, ..., m-1`, and `chapters_added`
is `m - start`. -/
theorem sync_story_stops_at_first_miss {α : Type} (fetch : Nat → Option α)
    (start m endC : Nat) (h1 : start ≤ m) (h2 : m ≤ endC)
    (hs : ∀ k, start ≤ k → k < m → (fetch k).isSome) (hm : fetch m = none) :
    (sync_story_chapters fetch start endC).map Prod.fst = List.range' start (m - start) ∧
    sync_chapters_added fetch start endC = m - start := by
  have hfst := syncChapters_map_fst fetch m (endC + 1 - start) start h1 (by omega) hs hm
  constructor
  · exact hfst
  · have := congrArg List.length hfst
    simpa [sync_chapters_added, sync_story_chapters] using this

/-- Witness for C2: chapters 1 and 2 succeed, chapter 3 is a 404, the
bound is 10; the run stores exactly chapters 1 and 2. -/
theorem sync_story_stops_at_first_miss_wit :
    (sync_story_chapters (fun k => if k < 3 then some () else none) 1 10).map Prod.fst
      = [1, 2] ∧
    sync_chapters_added (fun k => if k < 3 then some () else none) 1 10 = 2 := by
  have h := sync_story_stops_at_first_miss (fun k => if k < 3 then some () else none)
    1 3 10 (by omega) (by omega)
    (fun k _ hk2 => by simp [hk2])
    (by simp)
  simpa using h

/-- The chapter-cap constant `TruyenfullSpider.MAX_CHAPTERS_PER_STORY`. -/
def MAX_CHAPTERS_PER_STORY : Nat := 200

/-- The selection step of `_request_chapters`: apply the chapter limit
(`chapters_limit` when positive, else the hard cap, and never more than
the hard cap), then in resume mode drop any link whose url is in the
ledger's completed set for this story.  The returned list is exactly the
set of chapter requests dispatched. -/
def select_chapters (chapters_limit : Int) (resume_mode : Bool)
    (completed : List String) (links : List ChapterLink) : List ChapterLink :=
  let limit : Nat :=
    if 0 < chapters_limit then min chapters_limit.toNat MAX_CHAPTERS_PER_STORY
    else MAX_CHAPTERS_PER_STORY
  let selected := links.take limit
  if selected.isEmpty then []
  else if resume_mode then
    selected.filter (fun l => !(decide (l.url ∈ completed)))
  else selected

/-- C3. In resume mode, every chapter url present in the ledger's
completed set for the story is removed before dispatch: it never appears
among the dispatched chapter requests. -/
theorem resume_filters_completed (chapters_limit : Int) (completed : List String)
    (links : List ChapterLink) (u : String) (hu : u ∈ completed) :
    u ∉ (select_chapters chapters_limit true completed links).map ChapterLink.url := by
  intro hmem
  rw [select_chapters] at hmem
  by_cases hempty : (links.take (if 0 < chapters_limit then
      min chapters_limit.toNat MAX_CHAPTERS_PER_STORY else MAX_CHAPTERS_PER_STORY)).isEmpty
  · simp only [hempty, if_true] at hmem
    simp at hmem
  · simp only [hempty, if_false, Bool.false_eq_true, if_true] at hmem
    rcases List.mem_map.mp hmem with ⟨l, hl, rfl⟩
    rcases List.mem_filter.mp hl with ⟨_, hlp⟩
    have : ¬ (l.url ∈ completed) := by
      intro hcon
      simp [hcon] at hlp
    exact this hu

/-- Witness for C3: with chapter 1 already completed, a re-run dispatches
no request for its url. -/
theorem resume_filters_completed_wit :
    "https://x/s/chuong-1" ∈ ["https://x/s/chuong-1"] ∧
    "https://x/s/chuong-1" ∉
      (select_chapters 5 true ["https://x/s/chuong-1"]
        [{ url := "https://x/s/chuong-1", title := "c1" },
         { url := "https://x/s/chuong-2", title := "c2" }]).map ChapterLink.url :=
  ⟨by decide,
   resume_filters_completed 5 ["https://x/s/chuong-1"]
     [{ url := "https://x/s/chuong-1", title := "c1" },
      { url := "https://x/s/chuong-2", title := "c2" }]
     "https://x/s/chuong-1" (by decide)⟩

/-- The progress document kept per job id by `ProgressTracker`
(`{"completed_stories": [...], "stories": {url: {"completed_chapters": [...]}}}`);
the stories dict is embedded as an insertion-ordered association list. -/
structure ProgressState where
  completed_stories : List String
  stories : List (String × List String)
deriving DecidableEq, Repr

/-- The empty progress document `{}` (absent keys read as empty). -/
def emptyProgress : ProgressState := ⟨[], []⟩

/-- Read the completed-chapters list of one story:
`progress.get("stories", {}).get(story_url, {}).get("completed_chapters", [])`. -/
def getStoryChapters (stories : List (String × List String)) (s : String) : List String :=
  match stories.find? (fun kv => kv.1 == s) with
  | some kv => kv.2
  | none => []

/-- Write the completed-chapters list of one story, inserting the key at
the end when absent (Python dicts preserve insertion order). -/
def setStoryChapters : List (String × List String) → String → List String →
    List (String × List String)
  | [], s, chs => [(s, chs)]
  | (k, v) :: rest, s, chs =>
    if k == s then (k, chs) :: rest else (k, v) :: setStoryChapters rest s chs

/-- Embeds `ProgressTracker.mark_story_completed` on the loaded state:
append the story url to `completed_stories` unless already present, then
save. -/
def mark_story_completed (p : ProgressState) (story_url : String) : ProgressState :=
  if story_url ∈ p.completed_stories then p
  else { p with completed_stories := p.completed_stories ++ [story_url] }

/-- Embeds `ProgressTracker.mark_chapter_completed` on the loaded state:
ensure the story entry exists, append the chapter url to its
`completed_chapters` unless already present, then save. -/
def mark_chapter_completed (p : ProgressState) (s c : String) : ProgressState :=
  let chs := getStoryChapters p.stories s
  let chs2 := if c ∈ chs then chs else chs ++ [c]
  { p with stories := setStoryChapters p.stories s chs2 }

/-- Well-formedness of a progress document: no url is recorded twice. -/
def WFProgress (p : ProgressState) : Prop :=
  p.completed_stories.Nodup ∧ ∀ kv ∈ p.stories, kv.2.Nodup

instance : DecidablePred WFProgress :=
  fun p => inferInstanceAs
    (Decidable (p.completed_stories.Nodup ∧ ∀ kv ∈ p.stories, kv.2.Nodup))

theorem getStoryChapters_set (st : List (String × List String)) (s : String)
    (chs : List String) : getStoryChapters (setStoryChapters st s chs) s = chs := by
  induction st with
  | nil => simp [setStoryChapters, getStoryChapters]
  | cons kv rest ih =>
    by_cases hk : kv.1 = s
    · simp [setStoryChapters, hk, getStoryChapters]
    · have hk2 : (kv.1 == s) = false := by simp [hk]
      cases kv with
      | mk k v =>
        simp only [setStoryChapters, hk2, Bool.false_eq_true, if_false]
        simp only [getStoryChapters, List.find?] at ih ⊢
        rw [hk2]
        exact ih

theorem setStoryChapters_set (st : List (String × List String)) (s : String)
    (c1 c2 : List String) :
    setStoryChapters (setStoryChapters st s c1) s c2 = setStoryChapters st s c2 := by
  induction st with
  | nil => simp [setStoryChapters]
  | cons kv rest ih =>
    cases kv with
    | mk k v =>
      by_cases hk : k = s
      · simp [setStoryChapters, hk]
      · have hk2 : (k == s) = false := by simp [hk]
        simp only [setStoryChapters, hk2, Bool.false_eq_true, if_false, List.cons.injEq,
          true_and]
        exact ih

theorem getStoryChapters_nodup (p : ProgressState) (s : String) (hwf : WFProgress p) :
    (getStoryChapters p.stories s).Nodup := by
  rw [getStoryChapters]
  split
  · rename_i kv hf
    exact hwf.2 kv (List.mem_of_find?_eq_some hf)
  · exact List.nodup_nil

theorem mem_mark_story (p : ProgressState) (s : String) :
    s ∈ (mark_story_completed p s).completed_stories := by
  rw [mark_story_completed]
  by_cases hin : s ∈ p.completed_stories
  · rw [if_pos hin]; exact hin
  · rw [if_neg hin]; simp

theorem mark_story_of_mem (p : ProgressState) (s : String)
    (h : s ∈ p.completed_stories) : mark_story_completed p s = p := by
  rw [mark_story_completed, if_pos h]

theorem mark_chapter_chapters (p : ProgressState) (s c : String) :
    getStoryChapters (mark_chapter_completed p s c).stories s
      = (if c ∈ getStoryChapters p.stories s then getStoryChapters p.stories s
         else getStoryChapters p.stories s ++ [c]) :=
  getStoryChapters_set p.stories s _

theorem mark_story_count (p : ProgressState) (s : String)
    (hnd : p.completed_stories.Nodup) :
    (mark_story_completed p s).completed_stories.count s = 1 := by
  rw [mark_story_completed]
  by_cases hin : s ∈ p.completed_stories
  · rw [if_pos hin]
    exact List.count_eq_one_of_mem hnd hin
  · rw [if_neg hin]
    simp [List.count_append, List.count_eq_zero.mpr hin]

theorem mark_chapter_count (p : ProgressState) (s c : String) (hwf : WFProgress p) :
    (getStoryChapters (mark_chapter_completed p s c).stories s).count c = 1 := by
  rw [mark_chapter_chapters]
  have hnd := getStoryChapters_nodup p s hwf
  by_cases hin : c ∈ getStoryChapters p.stories s
  · rw [if_pos hin]
    exact List.count_eq_one_of_mem hnd hin
  · rw [if_neg hin]
    simp [List.count_append, List.count_eq_zero.mpr hin]

theorem mark_chapter_idem (p : ProgressState) (s c : String) :
    mark_chapter_completed (mark_chapter_completed p s c) s c
      = mark_chapter_completed p s c := by
  simp only [mark_chapter_completed]
  rw [getStoryChapters_set]
  have hcx : c ∈ (if c ∈ getStoryChapters p.stories s then getStoryChapters p.stories s
      else getStoryChapters p.stories s ++ [c]) := by
    by_cases hin : c ∈ getStoryChapters p.stories s
    · rw [if_pos hin]; exact hin
    · rw [if_neg hin]; simp
  rw [if_pos hcx, setStoryChapters_set]

/-- C4. Ledger marking is idempotent and records each marked entry
exactly once: on a well-formed progress document, repeating
`mark_story_completed` (resp. `mark_chapter_completed`) with the same
arguments leaves the state exactly as after the first call, and the
marked url appears exactly once in the resulting document. -/
theorem mark_idempotent (p : ProgressState) (s c : String) (hwf : WFProgress p) :
    mark_story_completed (mark_story_completed p s) s = mark_story_completed p s ∧
    mark_chapter_completed (mark_chapter_completed p s c) s c
      = mark_chapter_completed p s c ∧
    (mark_story_completed p s).completed_stories.count s = 1 ∧
    (getStoryChapters (mark_chapter_completed p s c).stories s).count c = 1 :=
  ⟨mark_story_of_mem (mark_story_completed p s) s (mem_mark_story p s),
   mark_chapter_idem p s c,
   mark_story_count p s hwf.1,
   mark_chapter_count p s c hwf⟩

/-- Witness for C4 on the empty (well-formed) document. -/
theorem mark_idempotent_wit :
    WFProgress emptyProgress ∧
    (mark_story_completed (mark_story_completed emptyProgress "s") "s"
      = mark_story_completed emptyProgress "s" ∧
     mark_chapter_completed (mark_chapter_completed emptyProgress "s" "c") "s" "c"
      = mark_chapter_completed emptyProgress "s" "c" ∧
     (mark_story_completed emptyProgress "s").completed_stories.count "s" = 1 ∧
     (getStoryChapters (mark_chapter_completed emptyProgress "s" "c").stories "s").count "c"
      = 1) :=
  ⟨by decide, mark_idempotent emptyProgress "s" "c" (by decide)⟩

/-- One worker's view during `mark_chapter_completed`: the shared stored
document plus each worker's loaded snapshot (None before its load).
`mark_chapter_completed` is a load-modify-save cycle with no lock, so a
schedule may interleave the two workers' loads and saves. -/
structure LedgerRun where
  shared : ProgressState
  snap1 : Option ProgressState
  snap2 : Option ProgressState
deriving DecidableEq, Repr

/-- Events of two concurrent `mark_chapter_completed` calls for the same
job id: each worker first loads the document, then saves its modified
copy. -/
inductive LedgerEv
  | load1
  | save1
  | load2
  | save2
deriving DecidableEq, Repr

/-- Execute one event: a load takes a snapshot of the shared document; a
save overwrites the shared document with the snapshot marked with that
worker's chapter url (exactly the load-modify-save of
`mark_chapter_completed`, with the load and the save split by the
schedule). -/
def ledgerStep (s c1 c2 : String) (st : LedgerRun) : LedgerEv → LedgerRun
  | .load1 => { st with snap1 := some st.shared }
  | .load2 => { st with snap2 := some st.shared }
  | .save1 =>
    match st.snap1 with
    | some p => { st with shared := mark_chapter_completed p s c1 }
    | none => st
  | .save2 =>
    match st.snap2 with
    | some p => { st with shared := mark_chapter_completed p s c2 }
    | none => st

/-- The shared document after running a schedule of ledger events from
an empty document. -/
def runLedgerSchedule (s c1 c2 : String) (evs : List LedgerEv) : ProgressState :=
  (evs.foldl (ledgerStep s c1 c2) { shared := emptyProgress, snap1 := none, snap2 := none }).shared

/-- C5. The ledger's load-modify-save is not serialized: under the
interleaving load1, load2, save1, save2 both workers complete a full
`mark_chapter_completed` cycle for the same job, yet worker 1's chapter
url is absent from the final document (a lost update), while worker 2's
url is present. -/
theorem ledger_lost_update :
    "c1" ∉ getStoryChapters
      (runLedgerSchedule "s" "c1" "c2"
        [LedgerEv.load1, LedgerEv.load2, LedgerEv.save1, LedgerEv.save2]).stories "s" ∧
    "c2" ∈ getStoryChapters
      (runLedgerSchedule "s" "c1" "c2"
        [LedgerEv.load1, LedgerEv.load2, LedgerEv.save1, LedgerEv.save2]).stories "s" := by
  constructor
  · decide
  · decide

/-- What `ProgressTracker.load_progress` finds on disk for a job id,
split by the failure mode of `open(..., encoding="utf-8")` followed by
`json.load`: the file may be absent, its bytes may not decode as UTF-8
(reading then raises UnicodeDecodeError), its decoded text may fail to
parse as JSON (json.JSONDecodeError), or it may hold a valid progress
document. -/
inductive StoredDoc
  | missing
  | notUtf8
  | notJson
  | valid (p : ProgressState)
deriving DecidableEq

/-- The exception class that escapes `load_progress`, whose except
clause `(json.JSONDecodeError, IOError)` does not cover
UnicodeDecodeError. -/
inductive LedgerError
  | unicodeDecodeError
deriving DecidableEq, Repr

/-- Embeds `ProgressTracker.load_progress`: a missing file returns `{}`
before the try block, undecodable JSON text is caught and returns `{}`,
but invalid UTF-8 bytes raise UnicodeDecodeError inside `json.load`,
which `except (json.JSONDecodeError, IOError)` does not catch; the
embedding surfaces that uncaught exception as an error value. -/
def load_progress : StoredDoc → Except LedgerError ProgressState
  | .missing => .ok emptyProgress
  | .notUtf8 => .error .unicodeDecodeError
  | .notJson => .ok emptyProgress
  | .valid p => .ok p

/-- Embeds `ProgressTracker.is_story_crawled`:
`story_url in progress.get("completed_stories", [])`; an exception from
`load_progress` propagates to the caller. -/
def is_story_crawled (doc : StoredDoc) (story_url : String) :
    Except LedgerError Bool :=
  (load_progress doc).map (fun p => p.completed_stories.contains story_url)

/-- Embeds `ProgressTracker.get_completed_chapters` (the underlying
list of the returned set); an exception from `load_progress` propagates
to the caller. -/
def get_completed_chapters (doc : StoredDoc) (story_url : String) :
    Except LedgerError (List String) :=
  (load_progress doc).map (fun p => getStoryChapters p.stories story_url)

/-- C6. The ledger fails open for a missing file and for a file whose
text is not valid JSON, but NOT for every corrupt document: a progress
file whose bytes are not valid UTF-8 makes `load_progress` raise
UnicodeDecodeError (outside the except clause), so every ledger reader
aborts on it instead of reporting empty progress, contradicting the
claim's "no exception is raised, never aborts a run". -/
theorem ledger_unicode_decode_aborts (u : String) :
    load_progress StoredDoc.missing = Except.ok emptyProgress ∧
    load_progress StoredDoc.notJson = Except.ok emptyProgress ∧
    is_story_crawled StoredDoc.missing u = Except.ok false ∧
    is_story_crawled StoredDoc.notJson u = Except.ok false ∧
    get_completed_chapters StoredDoc.missing u = Except.ok [] ∧
    get_completed_chapters StoredDoc.notJson u = Except.ok [] ∧
    load_progress StoredDoc.notUtf8 = Except.error LedgerError.unicodeDecodeError ∧
    is_story_crawled StoredDoc.notUtf8 u = Except.error LedgerError.unicodeDecodeError ∧
    get_completed_chapters StoredDoc.notUtf8 u
      = Except.error LedgerError.unicodeDecodeError :=
  ⟨rfl, rfl, rfl, rfl, rfl, rfl, rfl, rfl, rfl⟩

/-- A listing page as read by `_find_next_page`: the response url, the
hrefs under the primary pagination selector `ul.pagination a` (already
url-joined), and the result of the generic next-link fallback selectors
of `_find_next_fallback`. -/
structure ListingPageView where
  url : String
  pagination_links : List String
  generic_next : Option String
deriving DecidableEq, Repr

/-- The category-constrained links of `_find_next_page`: primary
pagination links containing `/the-loai/<category_slug>`. -/
def cat_links (category_slug : String) (page : ListingPageView) : List String :=
  page.pagination_links.filter
    (fun l => containsSub ("/the-loai/" ++ category_slug).toList l.toList)

/-- The current page number: `trang-?(\d+)` in the response url,
defaulting to 1. -/
def cur_page (page : ListingPageView) : Nat :=
  (searchWordNum trangWord page.url.toList).getD 1

/-- The numbered candidates among the category links. -/
def page_candidates (category_slug : String) (page : ListingPageView) :
    List (Nat × String) :=
  (cat_links category_slug page).filterMap
    (fun u => (searchWordNum trangWord u.toList).map (fun n => (n, u)))

/-- The candidates with a page number greater than the current page. -/
def next_candidates (category_slug : String) (page : ListingPageView) :
    List (Nat × String) :=
  (page_candidates category_slug page).filter (fun nu => decide (cur_page page < nu.1))

/-- The sort order of `next_pages.sort(key=lambda x: x[0])`. -/
def pageLe (a b : Nat × String) : Prop := a.1 ≤ b.1

instance : DecidableRel pageLe :=
  fun a b => inferInstanceAs (Decidable (a.1 ≤ b.1))

instance : IsTotal (Nat × String) pageLe :=
  ⟨fun a b => Nat.le_total a.1 b.1⟩

instance : IsTrans (Nat × String) pageLe :=
  ⟨fun _ _ _ hab hbc => Nat.le_trans hab hbc⟩

/-- Embeds `TruyenfullSpider._find_next_page`: only when the primary
pagination selector yields no links at all does it defer to the generic
fallback; otherwise it filters to the category path, and returns the
first category link when none carries a page number, the lowest-numbered
candidate greater than the current page when one exists, and nothing
otherwise. -/
def find_next_page (category_slug : String) (page : ListingPageView) : Option String :=
  if page.pagination_links.isEmpty then page.generic_next
  else if (page_candidates category_slug page).isEmpty then
    (cat_links category_slug page).head?
  else
    ((List.insertionSort pageLe (next_candidates category_slug page)).head?).map Prod.snd

/-- C8 (amended). Next-page discovery defers to the generic next-link
fallback only when the primary pagination selector yields no links at
all; when primary links exist the fallback is never consulted, and when
numbered category candidates exist but none exceeds the current page
number, no next page is returned (walking stops normally). -/
theorem find_next_page_spec (category_slug : String) (page : ListingPageView) :
    (page.pagination_links = [] → find_next_page category_slug page = page.generic_next) ∧
    (page.pagination_links ≠ [] →
      find_next_page category_slug page
        = find_next_page category_slug { page with generic_next := none }) ∧
    (page.pagination_links ≠ [] → page_candidates category_slug page ≠ [] →
      next_candidates category_slug page = [] →
      find_next_page category_slug page = none) := by
  have hproj : ({ page with generic_next := none } : ListingPageView).pagination_links
      = page.pagination_links := rfl
  have hcand : page_candidates category_slug { page with generic_next := none }
      = page_candidates category_slug page := rfl
  have hcat : cat_links category_slug { page with generic_next := none }
      = cat_links category_slug page := rfl
  have hnext : next_candidates category_slug { page with generic_next := none }
      = next_candidates category_slug page := rfl
  refine ⟨?_, ?_, ?_⟩
  · intro h
    rw [find_next_page, if_pos (by rw [h]; rfl)]
  · intro h
    have hne : page.pagination_links.isEmpty = false := by
      cases hl : page.pagination_links with
      | nil => exact absurd hl h
      | cons a t => rfl
    rw [find_next_page, find_next_page, hproj, hcand, hcat, hnext, hne]
    simp
  · intro h hc hn
    have hne : page.pagination_links.isEmpty = false := by
      cases hl : page.pagination_links with
      | nil => exact absurd hl h
      | cons a t => rfl
    have hce : (page_candidates category_slug page).isEmpty = false := by
      cases hl : page_candidates category_slug page with
      | nil => exact absurd hl hc
      | cons a t => rfl
    rw [find_next_page, hne, hce, hn]
    rfl

/-- Witness for C8: primary links exist and the only numbered candidate
(page 3) does not exceed the current page (9), so discovery returns no
next page. -/
theorem find_next_page_spec_wit :
    find_next_page "k"
      { url := "https://y/the-loai/k/trang-9/",
        pagination_links := ["https://y/the-loai/k/trang-3/"],
        generic_next := none } = none :=
  (find_next_page_spec "k"
    { url := "https://y/the-loai/k/trang-9/",
      pagination_links := ["https://y/the-loai/k/trang-3/"],
      generic_next := none }).2.2 (by decide) (by decide) (by decide)

/-- C8 counterexample. The primary selector yields links but no
candidate greater than the current page; a generic next link exists, yet
`_find_next_page` returns nothing instead of falling back to it. -/
theorem find_next_page_no_fallback :
    find_next_page "c"
      { url := "https://x/the-loai/c/trang-5/",
        pagination_links := ["https://x/the-loai/c/trang-2/"],
        generic_next := some "https://x/next" } = none ∧
    ({ url := "https://x/the-loai/c/trang-5/",
       pagination_links := ["https://x/the-loai/c/trang-2/"],
       generic_next := some "https://x/next" } : ListingPageView).generic_next
      = some "https://x/next" := by
  exact ⟨by decide, rfl⟩

/-- The retryable status codes configured in
`SCRAPER_SETTINGS["RETRY_HTTP_CODES"]`. -/
def RETRY_HTTP_CODES : List Nat := [500, 502, 503, 504, 522, 524, 408]

/-- All-digits check used by the numeric-literal parsers. -/
def parseDigitsNat (l : List Char) : Option Nat :=
  if !l.isEmpty && l.all Char.isDigit then some (digitsVal l) else none

/-- Python `int(s)` on a plain signed decimal literal (the general form
additionally strips whitespace and allows underscores; the Retry-After
values of interest are covered by this subset, anything else parses as
none, standing for ValueError). -/
def pyInt : List Char → Option Int
  | '-' :: rest => (parseDigitsNat rest).map (fun n => -(n : Int))
  | '+' :: rest => (parseDigitsNat rest).map (fun n => (n : Int))
  | l => (parseDigitsNat l).map (fun n => (n : Int))

/-- Magnitude of Python `int(float(s))` for an unsigned plain decimal
literal `d+ | d+. | d+.d+ | .d+`: float conversion then truncation
toward zero keeps the digits before the dot (exponent/inf/nan forms are
outside the modelled subset and parse as none). -/
def pyFloatMag (l : List Char) : Option Nat :=
  match l.span (fun c => c != '.') with
  | (intPart, []) =>
    if !intPart.isEmpty && intPart.all Char.isDigit then some (digitsVal intPart) else none
  | (intPart, _ :: fracPart) =>
    if intPart.all Char.isDigit && fracPart.all Char.isDigit &&
        !(intPart.isEmpty && fracPart.isEmpty) && !(fracPart.contains '.') then
      some (digitsVal intPart)
    else none

/-- Python `int(float(s))` with the sign handled, truncating toward
zero. -/
def pyFloatTrunc : List Char → Option Int
  | '-' :: rest => (pyFloatMag rest).map (fun n => -(n : Int))
  | '+' :: rest => (pyFloatMag rest).map (fun n => (n : Int))
  | l => (pyFloatMag l).map (fun n => (n : Int))

/-- Embeds `RespectRetryAfterMiddleware._parse_retry_after`: try
`int(value)`, then `int(float(value))`, else None. -/
def parse_retry_after (h : String) : Option Int :=
  match pyInt h.toList with
  | some n => some n
  | none => pyFloatTrunc h.toList

/-- Embeds `RespectRetryAfterMiddleware.process_response` as the number
of seconds slept before the response is returned: nothing unless the
status is exactly 503, the header is present, non-empty, parsable and
positive. -/
def process_response (status : Nat) (retry_after : Option String) : Int :=
  if status ≠ 503 then 0
  else
    match retry_after with
    | none => 0
    | some h =>
      if h = "" then 0
      else
        match parse_retry_after h with
        | some w => if 0 < w then w else 0
        | none => 0

/-- C9 (amended). Only a 503 response triggers the Retry-After pause:
the layer sleeps the parsed number of seconds when the header of a 503
parses to a positive value (float forms are truncated to whole seconds,
so "2.5" pauses 2); any other status sleeps 0 even with a valid header,
and a missing or unparsable header sleeps 0 and never fails. -/
theorem retry_after_spec (status : Nat) (h : String) :
    (status ≠ 503 → process_response status (some h) = 0) ∧
    (∀ w : Int, parse_retry_after h = some w → 0 < w → h ≠ "" →
      process_response 503 (some h) = w) ∧
    (parse_retry_after h = none → process_response 503 (some h) = 0) ∧
    process_response status none = 0 ∧
    parse_retry_after "2" = some 2 ∧
    parse_retry_after "2.5" = some 2 ∧
    parse_retry_after "abc" = none := by
  refine ⟨?_, ?_, ?_, ?_, by decide, by decide, by decide⟩
  · intro hs
    rw [process_response, if_pos hs]
  · intro w hp hw hne
    simp [process_response, hne, hp, hw]
  · intro hn
    by_cases hg : h = ""
    · simp [process_response, hg]
    · simp [process_response, hg, hn]
  · by_cases hs : status = 503 <;> simp [process_response, hs]

/-- Witness for C9: a 503 with Retry-After 3 pauses 3 seconds; a 502
with the same header pauses 0. -/
theorem retry_after_spec_wit :
    process_response 503 (some "3") = 3 ∧ process_response 502 (some "3") = 0 :=
  ⟨(retry_after_spec 503 "3").2.1 3 (by decide) (by decide) (by decide),
   (retry_after_spec 502 "3").1 (by decide)⟩

/-- C9 counterexample. 502 is a retryable status
(it is in RETRY_HTTP_CODES) and its Retry-After header parses to 2, yet
the middleware sleeps 0 seconds: only 503 is honored. -/
theorem retry_after_ignored_on_502 :
    502 ∈ RETRY_HTTP_CODES ∧
    parse_retry_after "2" = some 2 ∧
    process_response 502 (some "2") = 0 := by
  exact ⟨by decide, by decide, by decide⟩

theorem setStoryChapters_mem (st : List (String × List String)) (s : String)
    (chs : List String) :
    ∀ kv ∈ setStoryChapters st s chs, kv.2 = chs ∨ kv ∈ st := by
  induction st with
  | nil =>
    intro kv hkv
    simp only [setStoryChapters, List.mem_singleton] at hkv
    left
    rw [hkv]
  | cons p rest ih =>
    intro kv hkv
    cases p with
    | mk k v =>
      by_cases hk : k = s
      · have hk2 : (k == s) = true := by simp [hk]
        rw [setStoryChapters, if_pos hk2] at hkv
        rcases List.mem_cons.mp hkv with rfl | hmem
        · left; rfl
        · right; exact List.mem_cons_of_mem _ hmem
      · have hk2 : (k == s) = false := by simp [hk]
        rw [setStoryChapters, hk2] at hkv
        simp only [Bool.false_eq_true, if_false] at hkv
        rcases List.mem_cons.mp hkv with rfl | hmem
        · right; exact List.mem_cons_self _ _
        · rcases ih kv hmem with hval | hmem2
          · left; exact hval
          · right; exact List.mem_cons_of_mem _ hmem2

/-- Well-formedness is an invariant of the ledger: story marking keeps
the document well-formed, so the hypothesis of the idempotence theorem
holds for every document the code can ever produce. -/
theorem mark_story_wf (p : ProgressState) (s : String) (hwf : WFProgress p) :
    WFProgress (mark_story_completed p s) := by
  rw [mark_story_completed]
  by_cases hin : s ∈ p.completed_stories
  · rw [if_pos hin]; exact hwf
  · rw [if_neg hin]
    exact ⟨by simp [List.nodup_append, hwf.1, hin], hwf.2⟩

/-- Well-formedness is an invariant of the ledger: chapter marking keeps
the document well-formed. -/
theorem mark_chapter_wf (p : ProgressState) (s c : String) (hwf : WFProgress p) :
    WFProgress (mark_chapter_completed p s c) := by
  refine ⟨hwf.1, ?_⟩
  intro kv hkv
  have hkv2 : kv ∈ setStoryChapters p.stories s
      (if c ∈ getStoryChapters p.stories s then getStoryChapters p.stories s
       else getStoryChapters p.stories s ++ [c]) := hkv
  rcases setStoryChapters_mem p.stories s _ kv hkv2 with hval | hmem
  · rw [hval]
    have hnd := getStoryChapters_nodup p s hwf
    by_cases hin : c ∈ getStoryChapters p.stories s
    · rw [if_pos hin]; exact hnd
    · rw [if_neg hin]
      simp [List.nodup_append, hnd, hin]
  · exact hwf.2 kv hmem
